import Mathlib

/-! Shallow embedding of the slog-env handler (src/handler.go) and the parts of
Go's standard library it relies on (strings.Split, strings.Cut, strconv.Atoi,
slog.Level.UnmarshalText).  Go strings are embedded as `List Char`; every
separator the source splits on is a single character, so the single-character
split/cut functions below are exact models of the corresponding Go calls.
-/

set_option autoImplicit false

namespace SlogEnv

/-- A Go string, embedded as its list of characters. -/
abbrev Str := List Char

/-- Model of Go `strings.Cut(s, string(c))`: splits `s` around the first
occurrence of `c`, returning `(before, after, found)`.  When `c` does not
occur, returns `(s, "", false)` like the Go function. -/
def cutChar (c : Char) : Str → Str × Str × Bool
  | [] => ([], [], false)
  | x :: xs =>
    if x = c then ([], xs, true)
    else
      let r := cutChar c xs
      (x :: r.1, r.2.1, r.2.2)

/-- Model of Go `strings.Split(s, string(c))` for a single-character
separator: the list of substrings between occurrences of `c`.  Like the Go
function, the result is never empty and `splitOnChar c "" = [""]`. -/
def splitOnChar (c : Char) : Str → List Str
  | [] => [[]]
  | x :: xs =>
    if x = c then [] :: splitOnChar c xs
    else
      match splitOnChar c xs with
      | [] => [[x]]
      | h :: t => (x :: h) :: t

/-- The numeric value of `slog.LevelDebug`. -/
def LevelDebug : Int := -4

/-- The numeric value of `slog.LevelInfo` (the zero value of `slog.Level`). -/
def LevelInfo : Int := 0

/-- The numeric value of `slog.LevelWarn`. -/
def LevelWarn : Int := 4

/-- The numeric value of `slog.LevelError`. -/
def LevelError : Int := 8

/-- Model of the digit-run part of Go `strconv.Atoi`: all characters must be
decimal digits and there must be at least one. -/
def parseDigitsAux : Str → Nat → Option Nat
  | [], acc => some acc
  | c :: cs, acc =>
    if c.isDigit then parseDigitsAux cs (acc * 10 + (c.toNat - 48)) else none

/-- Digit-run parser: `none` on the empty string or any non-digit. -/
def parseDigits : Str → Option Nat
  | [] => none
  | s => parseDigitsAux s 0

/-- Model of Go `strconv.Atoi`: optional single leading sign, then a nonempty
run of decimal digits. -/
def atoi (s : Str) : Option Int :=
  match s with
  | '+' :: rest => (parseDigits rest).map (fun n => (n : Int))
  | '-' :: rest => (parseDigits rest).map (fun n => -(n : Int))
  | _ => (parseDigits s).map (fun n => (n : Int))

/-- Model of Go `strings.IndexAny(s, "+-")`: index of the first `+` or `-`. -/
def indexOfSign : Str → Option Nat
  | [] => none
  | c :: cs =>
    if c = '+' ∨ c = '-' then some 0 else (indexOfSign cs).map (· + 1)

/-- The name table of `slog.Level.parse`: case-insensitive match of the
level-name part against DEBUG/INFO/WARN/ERROR. -/
def levelNameValue (name : Str) : Option Int :=
  let up := name.map Char.toUpper
  if up = "DEBUG".toList then some LevelDebug
  else if up = "INFO".toList then some LevelInfo
  else if up = "WARN".toList then some LevelWarn
  else if up = "ERROR".toList then some LevelError
  else none

/-- Model of `slog.Level.parse` (the core of `slog.Level.UnmarshalText`):
an optional `name+offset` / `name-offset` suffix is parsed with `atoi`, the
name with `levelNameValue`; `none` models the error return, in which case
`UnmarshalText` leaves the receiver unchanged. -/
def levelParse (s : Str) : Option Int :=
  match indexOfSign s with
  | none => levelNameValue s
  | some i =>
    match atoi (s.drop i) with
    | none => none
    | some off => (levelNameValue (s.take i)).map (fun b => b + off)

/-- Model of `level.UnmarshalText(text)` called on a variable holding `cur`:
the parsed level on success, `cur` unchanged on failure (the source discards
the error). -/
def unmarshalLevel (cur : Int) (s : Str) : Int :=
  (levelParse s).getD cur

/-- The `perPackageLevel` map, modelled as an association list with
Go-map-compatible lookup and insert. -/
abbrev LevelMap := List (Str × Int)

/-- Model of a Go map read with `, ok`: first (unique) binding of the key. -/
def mapLookup (m : LevelMap) (k : Str) : Option Int :=
  match m with
  | [] => none
  | (k', v) :: rest => if k' = k then some v else mapLookup rest k

/-- Model of Go map assignment `m[k] = v`: replace the binding if present,
otherwise append a new one. -/
def mapInsert (m : LevelMap) (k : Str) (v : Int) : LevelMap :=
  match m with
  | [] => [(k, v)]
  | (k', v') :: rest =>
    if k' = k then (k, v) :: rest else (k', v') :: mapInsert rest k v

/-- One iteration of the loop body of `parseFilter` (handler.go lines
182-192): cut the term at the first `=`; with no `=` the term updates the
running default level, otherwise it updates that package's entry, reading the
current value (zero value `0` if absent) and overwriting it with the result
of `UnmarshalText`. -/
def parseFilterStep (acc : Int × LevelMap) (term : Str) : Int × LevelMap :=
  let r := cutChar '=' term
  if r.2.2 then
    let cur := (mapLookup acc.2 r.1).getD 0
    (acc.1, mapInsert acc.2 r.1 (unmarshalLevel cur r.2.1))
  else
    (unmarshalLevel acc.1 r.1, acc.2)

/-- Model of `parseFilter` (handler.go lines 178-195): split the filter on
commas and fold the loop body over the terms, starting from the supplied
default level and an empty map. -/
def parseFilter (defaultLevel : Int) (filter : Str) : Int × LevelMap :=
  (splitOnChar ',' filter).foldl parseFilterStep (defaultLevel, [])

/-- Model of `parsePackage` (handler.go lines 160-164): split the function
symbol on `/`, take the last segment, and cut it at the first `.`.  Returns
`(pkg, ok)` exactly like the Go function. -/
def parsePackage (function : Str) : Str × Bool :=
  let parts := splitOnChar '/' function
  let r := cutChar '.' (parts.getLastD [])
  (r.1, r.2.2)

/-- The part of `slog.Record` the handler inspects: the level, the caller
program counter, and the payload (message and attributes, opaque here) used
to state that the record is forwarded unchanged. -/
structure Record where
  level : Int
  pc : Nat
  msg : String

/-- The inner `slog.Handler` interface as consumed by this package: an
abstract state type `S`, attribute type `A`, error type `E`, and the three
operations the decorator invokes on its inner sink. -/
structure SinkOps (S : Type) (A : Type) (E : Type) where
  handle : S → Record → Except E Unit
  withAttrs : S → List A → S
  withGroup : S → String → S

/-- Model of the `Handler` struct (handler.go lines 61-67). -/
structure Handler (S : Type) where
  inner : S
  defaultLevel : Int
  perPackageLevel : LevelMap

/-- Model of `Handler.Enabled` (handler.go lines 97-105): with an empty
per-package map, compare against the default level; otherwise conservatively
report enabled and defer to `Handle`. -/
def Handler.Enabled {S : Type} (h : Handler S) (level : Int) : Bool :=
  if h.perPackageLevel.length = 0 then decide (h.defaultLevel ≤ level)
  else true

/-- Model of `Handler.getLevelForRecord` (handler.go lines 136-154).
`funcName` models `runtime.CallersFrames([]uintptr{record.PC})` followed by
`fs.Next().Function`: the runtime's mapping from a program counter to the
formatted function symbol (empty string when caller info is unavailable). -/
def Handler.getLevelForRecord {S : Type} (h : Handler S)
    (funcName : Nat → Str) (r : Record) : Int :=
  if h.perPackageLevel.length = 0 then h.defaultLevel
  else
    let p := parsePackage (funcName r.pc)
    if p.2 then
      match mapLookup h.perPackageLevel p.1 with
      | some level => level
      | none => h.defaultLevel
    else h.defaultLevel

/-- Model of `Handler.Handle` (handler.go lines 108-116): resolve the level
for the record; below it, return `nil` (here `Except.ok ()`) without touching
the inner sink; otherwise return the inner sink's result. -/
def Handler.Handle {S A E : Type} (h : Handler S) (ops : SinkOps S A E)
    (funcName : Nat → Str) (r : Record) : Except E Unit :=
  let level := h.getLevelForRecord funcName r
  if r.level < level then Except.ok ()
  else ops.handle h.inner r

/-- Model of `Handler.WithAttrs` (handler.go lines 119-125). -/
def Handler.WithAttrs {S A E : Type} (h : Handler S) (ops : SinkOps S A E)
    (attrs : List A) : Handler S :=
  { inner := ops.withAttrs h.inner attrs
    defaultLevel := h.defaultLevel
    perPackageLevel := h.perPackageLevel }

/-- Model of `Handler.WithGroup` (handler.go lines 128-134). -/
def Handler.WithGroup {S A E : Type} (h : Handler S) (ops : SinkOps S A E)
    (name : String) : Handler S :=
  { inner := ops.withGroup h.inner name
    defaultLevel := h.defaultLevel
    perPackageLevel := h.perPackageLevel }

/-- Model of the `config` struct (handler.go lines 29-33). -/
structure Config where
  defaultLevel : Int
  envVarName : Str
  defaultFilter : Str

/-- Model of the `Opt` functional-option type (handler.go line 36). -/
abbrev Opt := Config → Config

/-- Model of `WithDefaultLevel` (handler.go lines 39-43). -/
def WithDefaultLevel (level : Int) : Opt :=
  fun cfg => { cfg with defaultLevel := level }

/-- Model of `WithEnvVarName` (handler.go lines 46-50). -/
def WithEnvVarName (name : Str) : Opt :=
  fun cfg => { cfg with envVarName := name }

/-- Model of `WithDefaultFilter` (handler.go lines 53-57). -/
def WithDefaultFilter (filter : Str) : Opt :=
  fun cfg => { cfg with defaultFilter := filter }

/-- The initial `config` literal of `NewHandler` (handler.go lines 73-76):
`defaultFilter` is left at the string zero value, the empty string. -/
def initialConfig : Config :=
  { defaultLevel := LevelInfo, envVarName := "GO_LOG".toList, defaultFilter := [] }

/-- The option-application loop of `NewHandler` (handler.go lines 78-80). -/
def applyOpts (opts : List Opt) : Config :=
  opts.foldl (fun cfg o => o cfg) initialConfig

/-- The process environment, modelled as a partial map from variable name to
value; `none` is an unset variable. -/
abbrev EnvMap := Str → Option Str

/-- Model of `os.Getenv`: the value when set, the empty string otherwise. -/
def getenv (env : EnvMap) (name : Str) : Str :=
  (env name).getD []

/-- The filter-selection logic of `NewHandler` (handler.go lines 82-85): the
environment value when it is non-empty, else the configured default filter. -/
def resolveFilter (env : EnvMap) (cfg : Config) : Str :=
  let envFilter := getenv env cfg.envVarName
  if envFilter ≠ [] then envFilter else cfg.defaultFilter

/-- Model of `NewHandler` (handler.go lines 72-94). -/
def NewHandler {S : Type} (env : EnvMap) (inner : S) (opts : List Opt) :
    Handler S :=
  let cfg := applyOpts opts
  let p := parseFilter cfg.defaultLevel (resolveFilter env cfg)
  { inner := inner, defaultLevel := p.1, perPackageLevel := p.2 }

/-! Helper lemmas shared by the claim theorems -/

theorem mapLookup_mapInsert_self (m : LevelMap) (k : Str) (v : Int) :
    mapLookup (mapInsert m k v) k = some v := by
  induction m with
  | nil => simp [mapInsert, mapLookup]
  | cons p rest ih =>
    by_cases hk : p.1 = k <;> simp [mapInsert, mapLookup, hk, ih]

theorem mapLookup_mapInsert_ne (m : LevelMap) (k k' : Str) (v : Int)
    (h : k' ≠ k) : mapLookup (mapInsert m k v) k' = mapLookup m k' := by
  induction m with
  | nil => simp [mapInsert, mapLookup, Ne.symm h]
  | cons p rest ih =>
    by_cases hk : p.1 = k
    · simp [mapInsert, mapLookup, hk, Ne.symm h, h]
    · by_cases hk' : p.1 = k' <;>
        simp [mapInsert, mapLookup, hk, hk', h, Ne.symm h, ih]

theorem cutChar_found_iff (c : Char) (s : Str) :
    (cutChar c s).2.2 = true ↔ c ∈ s := by
  induction s with
  | nil => simp [cutChar]
  | cons x xs ih =>
    by_cases hx : x = c
    · simp [cutChar, hx]
    · simp [cutChar, hx, ih, Ne.symm hx]

theorem cutChar_decomp (c : Char) (s : Str) (h : (cutChar c s).2.2 = true) :
    s = (cutChar c s).1 ++ c :: (cutChar c s).2.1 ∧ c ∉ (cutChar c s).1 := by
  induction s with
  | nil => simp [cutChar] at h
  | cons x xs ih =>
    by_cases hx : x = c
    · simp [cutChar, hx]
    · have h' : (cutChar c xs).2.2 = true := by
        simpa [cutChar, hx] using h
      have := ih h'
      refine ⟨?_, ?_⟩
      · simpa [cutChar, hx] using congrArg (x :: ·) this.1
      · simp [cutChar, hx, this.2, Ne.symm hx]

theorem cutChar_append_self (c : Char) (s t : Str) (h : c ∉ s) :
    cutChar c (s ++ c :: t) = (s, t, true) := by
  induction s with
  | nil => simp [cutChar]
  | cons x xs ih =>
    have hx : x ≠ c := by intro hh; exact h (hh ▸ List.mem_cons_self x xs)
    have hxs : c ∉ xs := fun hh => h (List.mem_cons_of_mem x hh)
    simp [cutChar, hx, ih hxs]

theorem parseFilter_nil (d : Int) : parseFilter d [] = (d, []) := rfl

/-! Claim theorems -/

/-- Claim C1: for every handler state and every record, `Handle` drops the
record and returns no error when the record's level is strictly below the
resolved effective level; otherwise it returns the inner sink's `Handle`
result on the unchanged record verbatim.  The inner sink `ops` is universally
quantified, so the drop branch is independent of the inner sink (no call is
observable) and the forward branch adds no wrapping or retry. -/
theorem handle_drop_or_forward_c1 {S A E : Type} (h : Handler S)
    (ops : SinkOps S A E) (fn : Nat → Str) (r : Record) :
    (r.level < h.getLevelForRecord fn r →
      h.Handle ops fn r = Except.ok ()) ∧
    (¬ r.level < h.getLevelForRecord fn r →
      h.Handle ops fn r = ops.handle h.inner r) := by
  constructor <;> intro hlt <;> simp [Handler.Handle, hlt]

theorem handle_drop_or_forward_c1_witness :
    (Handler.Handle ⟨(), 0, []⟩
      (⟨fun _ _ => Except.error ("boom"), fun s _ => s, fun s _ => s⟩ :
        SinkOps Unit Unit String)
      (fun _ => []) ⟨-4, 0, "m"⟩ = Except.ok ()) ∧
    (Handler.Handle ⟨(), 0, []⟩
      (⟨fun _ _ => Except.error ("boom"), fun s _ => s, fun s _ => s⟩ :
        SinkOps Unit Unit String)
      (fun _ => []) ⟨0, 0, "m"⟩ = Except.error ("boom")) :=
  ⟨(handle_drop_or_forward_c1 _ _ _ _).1 (by decide),
   (handle_drop_or_forward_c1 _ _ _ _).2 (by decide)⟩

/-- Claim C5: with an empty overrides map, `Enabled` returns exactly
`level >= defaultLevel` and agrees with the emit/drop decision `Handle` makes
for a record at that level; with a non-empty overrides map, `Enabled` is
`true` for every level. -/
theorem enabled_agrees_with_handle_c5 {S : Type} (h : Handler S)
    (level : Int) :
    (h.perPackageLevel = [] →
      (h.Enabled level = true ↔ h.defaultLevel ≤ level) ∧
      (∀ {A E : Type} (ops : SinkOps S A E) (fn : Nat → Str) (r : Record),
        r.level = level →
        (h.Enabled level = true → h.Handle ops fn r = ops.handle h.inner r) ∧
        (h.Enabled level = false → h.Handle ops fn r = Except.ok ()))) ∧
    (h.perPackageLevel ≠ [] → h.Enabled level = true) := by
  constructor
  · intro hm
    have hlen : h.perPackageLevel.length = 0 := by simp [hm]
    constructor
    · simp [Handler.Enabled, hlen]
    · intro A E ops fn r hr
      have hget : h.getLevelForRecord fn r = h.defaultLevel := by
        simp [Handler.getLevelForRecord, hlen]
      constructor
      · intro hen
        have : h.defaultLevel ≤ level := by
          simpa [Handler.Enabled, hlen] using hen
        have hnlt : ¬ r.level < h.getLevelForRecord fn r := by
          rw [hget, hr]; exact not_lt.mpr this
        simp [Handler.Handle, hnlt]
      · intro hen
        have : ¬ h.defaultLevel ≤ level := by
          simpa [Handler.Enabled, hlen] using hen
        have hlt : r.level < h.getLevelForRecord fn r := by
          rw [hget, hr]; exact lt_of_not_le this
        simp [Handler.Handle, hlt]
  · intro hm
    have hlen : h.perPackageLevel.length ≠ 0 := by
      simpa [List.length_eq_zero] using hm
    simp [Handler.Enabled, hlen]

theorem enabled_agrees_with_handle_c5_witness :
    ((Handler.Enabled (⟨(), 0, []⟩ : Handler Unit) 4 = true ↔ (0 : Int) ≤ 4) ∧
      Handler.Enabled (⟨(), 0, [("m".toList, 8)]⟩ : Handler Unit) (-4) = true) :=
  ⟨((enabled_agrees_with_handle_c5 (⟨(), 0, []⟩ : Handler Unit) 4).1 rfl).1,
   (enabled_agrees_with_handle_c5
      (⟨(), 0, [("m".toList, 8)]⟩ : Handler Unit) (-4)).2 (by decide)⟩

/-- Claim C6: `WithAttrs` and `WithGroup` return a new handler wrapping the
correspondingly derived inner sink, carry forward the very same
`defaultLevel` and `perPackageLevel` (the map value is reused, not
reconstructed — in this pure embedding the receiver itself is unchanged by
construction), and the derived handler's level resolution, drop decision and
`Enabled` answer coincide with the parent's on every record and level. -/
theorem derived_handlers_preserve_filtering_c6 {S A E : Type}
    (h : Handler S) (ops : SinkOps S A E) (attrs : List A) (name : String) :
    (h.WithAttrs ops attrs).inner = ops.withAttrs h.inner attrs ∧
    (h.WithGroup ops name).inner = ops.withGroup h.inner name ∧
    (h.WithAttrs ops attrs).defaultLevel = h.defaultLevel ∧
    (h.WithAttrs ops attrs).perPackageLevel = h.perPackageLevel ∧
    (h.WithGroup ops name).defaultLevel = h.defaultLevel ∧
    (h.WithGroup ops name).perPackageLevel = h.perPackageLevel ∧
    (∀ (fn : Nat → Str) (r : Record),
      (h.WithAttrs ops attrs).getLevelForRecord fn r
          = h.getLevelForRecord fn r ∧
      (h.WithGroup ops name).getLevelForRecord fn r
          = h.getLevelForRecord fn r ∧
      ((r.level < (h.WithAttrs ops attrs).getLevelForRecord fn r) ↔
        (r.level < h.getLevelForRecord fn r))) ∧
    (∀ level : Int,
      (h.WithAttrs ops attrs).Enabled level = h.Enabled level ∧
      (h.WithGroup ops name).Enabled level = h.Enabled level) := by
  refine ⟨rfl, rfl, rfl, rfl, rfl, rfl, fun fn r => ⟨rfl, rfl, Iff.rfl⟩,
    fun level => ⟨rfl, rfl⟩⟩

/-- Claim C10: with an empty overrides map, the emit/drop decision of
`Handle` depends only on the record's level: two records with equal levels
but different program counters — even resolved through different runtime
symbol tables — get the same effective level and the same decision, since the
caller token is never inspected on that path. -/
theorem empty_overrides_pc_noninterference_c10 {S : Type} (h : Handler S)
    (fn fn' : Nat → Str) (r r' : Record) (hm : h.perPackageLevel = [])
    (hl : r.level = r'.level) :
    h.getLevelForRecord fn r = h.getLevelForRecord fn' r' ∧
    ((r.level < h.getLevelForRecord fn r) ↔
      (r'.level < h.getLevelForRecord fn' r')) := by
  have hlen : h.perPackageLevel.length = 0 := by simp [hm]
  constructor
  · simp [Handler.getLevelForRecord, hlen]
  · simp [Handler.getLevelForRecord, hlen, hl]

theorem empty_overrides_pc_noninterference_c10_witness :
    Handler.getLevelForRecord (⟨(), 4, []⟩ : Handler Unit)
        (fun _ => "a.b".toList) ⟨0, 17, "x"⟩
      = Handler.getLevelForRecord (⟨(), 4, []⟩ : Handler Unit)
        (fun _ => "c/d.e".toList) ⟨0, 99, "y"⟩ :=
  (empty_overrides_pc_noninterference_c10 (⟨(), 4, []⟩ : Handler Unit)
    (fun _ => "a.b".toList) (fun _ => "c/d.e".toList)
    ⟨0, 17, "x"⟩ ⟨0, 99, "y"⟩ rfl rfl).1

/-- Claim C2: the effective level used by `Handle` is the default level when
the overrides map is empty; otherwise the module name is the substring of the
last `/`-separated segment of the caller symbol before its first `.`, the
effective level is the override for that module when the entry exists, and
the default level when resolution fails (no `.`, which covers an empty
symbol from unavailable caller info) or when there is no entry.  Resolution
is total, so the log call never fails because of it. -/
theorem effective_level_resolution_c2 {S : Type} (h : Handler S)
    (fn : Nat → Str) (r : Record) :
    (h.perPackageLevel = [] → h.getLevelForRecord fn r = h.defaultLevel) ∧
    (h.perPackageLevel ≠ [] →
      ((parsePackage (fn r.pc)).2 = false →
        h.getLevelForRecord fn r = h.defaultLevel) ∧
      ((parsePackage (fn r.pc)).2 = true →
        h.getLevelForRecord fn r
          = (mapLookup h.perPackageLevel (parsePackage (fn r.pc)).1).getD
              h.defaultLevel)) ∧
    (∀ s : Str,
      ((parsePackage s).2 = true ↔ '.' ∈ (splitOnChar '/' s).getLastD []) ∧
      ((parsePackage s).2 = true →
        '.' ∉ (parsePackage s).1 ∧
        ∃ rest, (splitOnChar '/' s).getLastD []
          = (parsePackage s).1 ++ '.' :: rest)) := by
  refine ⟨?_, ?_, ?_⟩
  · intro hm
    have hlen : h.perPackageLevel.length = 0 := by simp [hm]
    simp [Handler.getLevelForRecord, hlen]
  · intro hm
    have hlen : ¬ h.perPackageLevel.length = 0 := by
      simpa [List.length_eq_zero] using hm
    constructor
    · intro hok
      simp [Handler.getLevelForRecord, hlen, hok]
    · intro hok
      cases hval : mapLookup h.perPackageLevel (parsePackage (fn r.pc)).1 <;>
        simp [Handler.getLevelForRecord, hlen, hok, hval]
  · intro s
    constructor
    · exact cutChar_found_iff '.' ((splitOnChar '/' s).getLastD [])
    · intro hok
      have hd := cutChar_decomp '.' ((splitOnChar '/' s).getLastD []) hok
      exact ⟨hd.2, (cutChar '.' ((splitOnChar '/' s).getLastD [])).2.1, hd.1⟩

theorem effective_level_resolution_c2_witness :
    Handler.getLevelForRecord (⟨(), 3, []⟩ : Handler Unit)
        (fun _ => "a.b".toList) ⟨0, 0, "x"⟩ = 3 ∧
    Handler.getLevelForRecord
        (⟨(), 3, [("slog-env_test".toList, -4)]⟩ : Handler Unit)
        (fun _ => "mainfunc".toList) ⟨0, 0, "x"⟩ = 3 ∧
    Handler.getLevelForRecord
        (⟨(), 3, [("slog-env_test".toList, -4)]⟩ : Handler Unit)
        (fun _ => "github.com/cbrewster/slog-env_test.TestFilterPackage".toList)
        ⟨0, 0, "x"⟩
      = (mapLookup [("slog-env_test".toList, -4)]
          (parsePackage
            ("github.com/cbrewster/slog-env_test.TestFilterPackage".toList)).1).getD
          3 :=
  ⟨(effective_level_resolution_c2 (⟨(), 3, []⟩ : Handler Unit)
      (fun _ => "a.b".toList) ⟨0, 0, "x"⟩).1 rfl,
   ((effective_level_resolution_c2
      (⟨(), 3, [("slog-env_test".toList, -4)]⟩ : Handler Unit)
      (fun _ => "mainfunc".toList) ⟨0, 0, "x"⟩).2.1 (by decide)).1 (by decide),
   ((effective_level_resolution_c2
      (⟨(), 3, [("slog-env_test".toList, -4)]⟩ : Handler Unit)
      (fun _ => "github.com/cbrewster/slog-env_test.TestFilterPackage".toList)
      ⟨0, 0, "x"⟩).2.1 (by decide)).2 (by decide)⟩

/-- Claim C4: a term whose level token fails to decode is silently ignored.
Stated about the loop body `parseFilterStep` at an arbitrary intermediate
parser state, which covers such a term at any position of any filter string:
a bare term leaves the state untouched, and a `module=level` term leaves that
module's current value (the stored value when an entry exists, else the Go
map zero value `0` that the loop body reads) in place and every other key
untouched.  No error exists in any form: the parser's return type has no
error component. -/
theorem invalid_level_token_ignored_c4 (d : Int) (m : LevelMap) (term : Str) :
    ((cutChar '=' term).2.2 = false →
      levelParse (cutChar '=' term).1 = none →
      parseFilterStep (d, m) term = (d, m)) ∧
    ((cutChar '=' term).2.2 = true →
      levelParse (cutChar '=' term).2.1 = none →
      (parseFilterStep (d, m) term).1 = d ∧
      mapLookup (parseFilterStep (d, m) term).2 (cutChar '=' term).1
        = some ((mapLookup m (cutChar '=' term).1).getD 0) ∧
      (∀ v, mapLookup m (cutChar '=' term).1 = some v →
        mapLookup (parseFilterStep (d, m) term).2 (cutChar '=' term).1
          = some v) ∧
      (∀ k, k ≠ (cutChar '=' term).1 →
        mapLookup (parseFilterStep (d, m) term).2 k = mapLookup m k)) := by
  constructor
  · intro hok hparse
    simp [parseFilterStep, hok, unmarshalLevel, hparse]
  · intro hok hparse
    refine ⟨?_, ?_, ?_, ?_⟩
    · simp [parseFilterStep, hok]
    · simp [parseFilterStep, hok, unmarshalLevel, hparse,
        mapLookup_mapInsert_self]
    · intro v hv
      simp [parseFilterStep, hok, unmarshalLevel, hparse,
        mapLookup_mapInsert_self, hv]
    · intro k hk
      simp [parseFilterStep, hok, mapLookup_mapInsert_ne _ _ _ _ hk]

theorem invalid_level_token_ignored_c4_witness :
    parseFilterStep (7, [("m".toList, 5)]) ("bogus".toList)
      = (7, [("m".toList, 5)]) ∧
    mapLookup (parseFilterStep (7, [("m".toList, 5)]) ("m=bogus".toList)).2
      ("m".toList) = some 5 :=
  ⟨(invalid_level_token_ignored_c4 7 [("m".toList, 5)] ("bogus".toList)).1
      (by decide) (by decide),
   ((invalid_level_token_ignored_c4 7 [("m".toList, 5)]
      ("m=bogus".toList)).2 (by decide) (by decide)).2.2.1 5 (by decide)⟩

/-- Counterexample to claim C7 as stated: for the filter `"m="` the parser
records an override entry for `m` whose value is the `slog.Level` zero value
`0`, i.e. Info — but Info is not the lowest level, since Debug (`-4`) is a
decodable level strictly below it. -/
theorem empty_level_module_term_c7_counterexample :
    mapLookup (parseFilter LevelInfo ("m=".toList)).2 ("m".toList)
      = some LevelInfo ∧
    levelParse ("debug".toList) = some LevelDebug ∧
    LevelDebug < LevelInfo := by
  decide

/-- Claim C7 amended: processing a term `module=` (empty level text) when the
module has no entry yet (not assigned by an earlier term) records an override
entry for that module whose value is the level type's zero value `0` — which
is Info, not the lowest level, as Debug lies strictly below it. -/
theorem empty_level_module_term_c7_amended (d : Int) (m : LevelMap) (k : Str)
    (hk : '=' ∉ k) (hnone : mapLookup m k = none) :
    mapLookup (parseFilterStep (d, m) (k ++ ['='])).2 k = some LevelInfo ∧
    LevelDebug < LevelInfo := by
  have hcut : cutChar '=' (k ++ ['=']) = (k, [], true) :=
    cutChar_append_self '=' k [] hk
  constructor
  · simp [parseFilterStep, hcut, unmarshalLevel, levelParse, indexOfSign,
      levelNameValue, hnone, mapLookup_mapInsert_self, LevelInfo]
  · decide

theorem empty_level_module_term_c7_amended_witness :
    mapLookup (parseFilterStep (0, []) ("m".toList ++ ['='])).2 ("m".toList)
      = some LevelInfo :=
  (empty_level_module_term_c7_amended 0 [] ("m".toList) (by decide) rfl).1

/-- Claim C8: the filter text handed to the parser is the environment
variable's value when that value is non-empty, otherwise the configured
default filter text; when that too is absent (empty), the handler resolves
to the configured default level with no overrides.  Construction options are
applied in order by a left fold, so each option may override what earlier
options set. -/
theorem construction_fallback_order_c8 {S : Type} (env : EnvMap) (inner : S)
    (opts : List Opt) :
    (getenv env (applyOpts opts).envVarName ≠ [] →
      resolveFilter env (applyOpts opts)
        = getenv env (applyOpts opts).envVarName) ∧
    (getenv env (applyOpts opts).envVarName = [] →
      resolveFilter env (applyOpts opts) = (applyOpts opts).defaultFilter) ∧
    ((NewHandler env inner opts).defaultLevel
        = (parseFilter (applyOpts opts).defaultLevel
            (resolveFilter env (applyOpts opts))).1 ∧
      (NewHandler env inner opts).perPackageLevel
        = (parseFilter (applyOpts opts).defaultLevel
            (resolveFilter env (applyOpts opts))).2) ∧
    (getenv env (applyOpts opts).envVarName = [] →
      (applyOpts opts).defaultFilter = [] →
      (NewHandler env inner opts).defaultLevel
          = (applyOpts opts).defaultLevel ∧
      (NewHandler env inner opts).perPackageLevel = []) ∧
    (∀ (os : List Opt) (o : Opt), applyOpts (os ++ [o]) = o (applyOpts os)) := by
  refine ⟨?_, ?_, ⟨rfl, rfl⟩, ?_, ?_⟩
  · intro hne
    simp [resolveFilter, hne]
  · intro heq
    simp [resolveFilter, heq]
  · intro heq hdf
    have hres : resolveFilter env (applyOpts opts) = [] := by
      simp [resolveFilter, heq, hdf]
    constructor
    · show (parseFilter (applyOpts opts).defaultLevel
        (resolveFilter env (applyOpts opts))).1 = _
      rw [hres, parseFilter_nil]
    · show (parseFilter (applyOpts opts).defaultLevel
        (resolveFilter env (applyOpts opts))).2 = _
      rw [hres, parseFilter_nil]
  · intro os o
    simp [applyOpts, List.foldl_append]

theorem construction_fallback_order_c8_witness :
    resolveFilter (fun n => if n = "GO_LOG".toList then some ("warn".toList)
        else none) (applyOpts [])
      = getenv (fun n => if n = "GO_LOG".toList then some ("warn".toList)
        else none) (applyOpts []).envVarName ∧
    ((NewHandler (fun _ => none) () [WithDefaultLevel 8]).defaultLevel = 8 ∧
      (NewHandler (fun _ => none) () [WithDefaultLevel 8]).perPackageLevel
        = []) ∧
    applyOpts ([WithDefaultLevel 2] ++ [WithDefaultLevel 8])
      = WithDefaultLevel 8 (applyOpts [WithDefaultLevel 2]) :=
  ⟨(construction_fallback_order_c8
      (fun n => if n = "GO_LOG".toList then some ("warn".toList) else none)
      () []).1 (by decide),
   (construction_fallback_order_c8 (fun _ => none) ()
      [WithDefaultLevel 8]).2.2.2.1 rfl rfl,
   (construction_fallback_order_c8 (fun _ => none) () []).2.2.2.2
      [WithDefaultLevel 2] (WithDefaultLevel 8)⟩

/-- The environment with one variable's binding replaced. -/
def updateEnv (e : EnvMap) (name : Str) (v : Option Str) : EnvMap :=
  fun n => if n = name then v else e n

/-- Claim C9: an environment variable set to the empty string is
indistinguishable from an unset one — `NewHandler` builds the same handler
either way, and in both cases the configured default filter text is the one
handed to the parser, since only a non-empty environment value replaces it. -/
theorem empty_env_value_like_unset_c9 {S : Type} (e : EnvMap) (name : Str)
    (inner : S) (opts : List Opt) :
    NewHandler (updateEnv e name (some [])) inner opts
      = NewHandler (updateEnv e name none) inner opts ∧
    ((applyOpts opts).envVarName = name →
      resolveFilter (updateEnv e name (some [])) (applyOpts opts)
        = (applyOpts opts).defaultFilter) := by
  have hget : ∀ n, getenv (updateEnv e name (some [])) n
      = getenv (updateEnv e name none) n := by
    intro n
    by_cases hn : n = name <;> simp [getenv, updateEnv, hn]
  have hres : resolveFilter (updateEnv e name (some [])) (applyOpts opts)
      = resolveFilter (updateEnv e name none) (applyOpts opts) := by
    simp [resolveFilter, hget]
  constructor
  · simp [NewHandler, hres]
  · intro hn
    simp [resolveFilter, getenv, updateEnv, hn]

theorem empty_env_value_like_unset_c9_witness :
    NewHandler (updateEnv (fun _ => none) ("GO_LOG".toList) (some []))
        () [] =
      NewHandler (updateEnv (fun _ => none) ("GO_LOG".toList) none) () [] ∧
    resolveFilter (updateEnv (fun _ => none) ("GO_LOG".toList) (some []))
        (applyOpts []) = (applyOpts []).defaultFilter :=
  ⟨(empty_env_value_like_unset_c9 (fun _ => none) ("GO_LOG".toList) () []).1,
   (empty_env_value_like_unset_c9 (fun _ => none) ("GO_LOG".toList) () []).2
      rfl⟩

/-! Spec-side description of the parser used by claim C3.

The next three definitions follow the claim's words, not the source, and are
compared against `parseFilter` in the C3 theorem. -/

/-- Spec-side: the levels of the bare (no `=`) terms whose token decodes, in
order of appearance. -/
def bareLevels (terms : List Str) : List Int :=
  terms.filterMap (fun t =>
    if (cutChar '=' t).2.2 then none else levelParse (cutChar '=' t).1)

/-- Spec-side: the level texts of the `module=level` terms for module `k`,
in order of appearance. -/
def moduleTerms (terms : List Str) (k : Str) : List Str :=
  terms.filterMap (fun t =>
    if (cutChar '=' t).2.2 = true ∧ (cutChar '=' t).1 = k
    then some (cutChar '=' t).2.1 else none)

/-- A term whose level token decodes as a known level. -/
def validTerm (t : Str) : Bool :=
  if (cutChar '=' t).2.2 then (levelParse (cutChar '=' t).2.1).isSome
  else (levelParse (cutChar '=' t).1).isSome

/-- All terms carry valid level tokens. -/
def validTerms (terms : List Str) : Bool := terms.all validTerm

/-- The resolved default level after folding the parser loop is the level of
the last decodable bare term, or the initial default when there is none. -/
theorem foldl_parseFilterStep_fst (d : Int) (m : LevelMap)
    (terms : List Str) :
    (terms.foldl parseFilterStep (d, m)).1 = (bareLevels terms).getLastD d := by
  induction terms using List.reverseRecOn with
  | nil => simp [bareLevels]
  | append_singleton ts t ih =>
    rw [List.foldl_append]
    by_cases hok : (cutChar '=' t).2.2 = true
    · have hb : bareLevels (ts ++ [t]) = bareLevels ts := by
        simp [bareLevels, List.filterMap_append, hok]
      rw [hb, ← ih]
      simp [parseFilterStep, hok]
    · cases hparse : levelParse (cutChar '=' t).1 with
      | none =>
        have hb : bareLevels (ts ++ [t]) = bareLevels ts := by
          simp [bareLevels, List.filterMap_append, hok, hparse]
        rw [hb, ← ih]
        simp [parseFilterStep, hok, unmarshalLevel, hparse]
      | some l =>
        have hb : bareLevels (ts ++ [t]) = bareLevels ts ++ [l] := by
          simp [bareLevels, List.filterMap_append, hok, hparse]
        rw [hb]
        simp [parseFilterStep, hok, unmarshalLevel, hparse,
          List.getLastD_eq_getLast?, List.getLast?_concat]

/-- After folding the parser loop over terms that all carry valid level
tokens, the override for a module is the parsed level of that module's last
`module=level` term, and is the inherited value when the module has none. -/
theorem foldl_parseFilterStep_lookup (d : Int) (m : LevelMap) (k : Str)
    (terms : List Str) (hv : validTerms terms = true) :
    (moduleTerms terms k = [] →
      mapLookup (terms.foldl parseFilterStep (d, m)).2 k = mapLookup m k) ∧
    (∀ b, (moduleTerms terms k).getLast? = some b →
      mapLookup (terms.foldl parseFilterStep (d, m)).2 k = levelParse b) := by
  induction terms using List.reverseRecOn with
  | nil =>
    exact ⟨fun _ => rfl, fun b hb => by simp [moduleTerms] at hb⟩
  | append_singleton ts t ih =>
    have hv' : (∀ x ∈ ts, validTerm x = true) ∧ validTerm t = true := by
      simpa [validTerms, List.all_append] using hv
    have hvts : validTerms ts = true := List.all_eq_true.mpr hv'.1
    have hvt : validTerm t = true := hv'.2
    have ih' := ih hvts
    rw [List.foldl_append, List.foldl_cons, List.foldl_nil]
    by_cases hok : (cutChar '=' t).2.2 = true
    · by_cases hk : (cutChar '=' t).1 = k
      · obtain ⟨l, hl⟩ : ∃ l, levelParse (cutChar '=' t).2.1 = some l := by
          have := hvt
          simp [validTerm, hok, Option.isSome_iff_exists] at this
          exact this
        have hmt : moduleTerms (ts ++ [t]) k
            = moduleTerms ts k ++ [(cutChar '=' t).2.1] := by
          simp [moduleTerms, List.filterMap_append, hok, hk]
        have hstep : mapLookup
            (parseFilterStep (ts.foldl parseFilterStep (d, m)) t).2 k
              = some l := by
          simp [parseFilterStep, hok, hk, unmarshalLevel, hl,
            mapLookup_mapInsert_self]
        constructor
        · intro h0
          rw [hmt] at h0
          simp at h0
        · intro b hb
          rw [hmt, List.getLast?_concat] at hb
          have hbt : b = (cutChar '=' t).2.1 := by
            exact (Option.some.injEq _ _).mp hb.symm
          rw [hstep, hbt, hl]
      · have hmt : moduleTerms (ts ++ [t]) k = moduleTerms ts k := by
          simp [moduleTerms, List.filterMap_append, hok, hk]
        have hstep : mapLookup
            (parseFilterStep (ts.foldl parseFilterStep (d, m)) t).2 k
              = mapLookup (ts.foldl parseFilterStep (d, m)).2 k := by
          have hkk : k ≠ (cutChar '=' t).1 := fun hh => hk hh.symm
          simp [parseFilterStep, hok, mapLookup_mapInsert_ne _ _ _ _ hkk]
        rw [hmt, hstep]
        exact ih'
    · have hmt : moduleTerms (ts ++ [t]) k = moduleTerms ts k := by
        simp [moduleTerms, List.filterMap_append, hok]
      have hstep : (parseFilterStep (ts.foldl parseFilterStep (d, m)) t).2
          = (ts.foldl parseFilterStep (d, m)).2 := by
        simp [parseFilterStep, hok]
      rw [hmt, hstep]
      exact ih'

/-- Claim C3: on a filter whose terms all carry valid level tokens, terms
apply left to right with later terms winning: the resolved default level is
the last bare term's level (the initial default when no bare term exists),
and each module's override is the parsed level of its last `module=level`
term, absent when the module never appears. -/
theorem parse_later_terms_win_c3 (d : Int) (filter : Str)
    (hv : validTerms (splitOnChar ',' filter) = true) :
    (parseFilter d filter).1
        = (bareLevels (splitOnChar ',' filter)).getLastD d ∧
    ∀ k : Str,
      (moduleTerms (splitOnChar ',' filter) k = [] →
        mapLookup (parseFilter d filter).2 k = none) ∧
      (∀ b, (moduleTerms (splitOnChar ',' filter) k).getLast? = some b →
        mapLookup (parseFilter d filter).2 k = levelParse b) := by
  constructor
  · exact foldl_parseFilterStep_fst d [] (splitOnChar ',' filter)
  · intro k
    have h := foldl_parseFilterStep_lookup d [] k (splitOnChar ',' filter) hv
    exact ⟨fun h0 => h.1 h0, h.2⟩

theorem parse_later_terms_win_c3_witness :
    mapLookup
        (parseFilter LevelInfo ("mypackage=error,mypackage=info".toList)).2
        ("mypackage".toList)
      = levelParse ("info".toList) ∧
    (parseFilter LevelInfo ("debug,mypackage=error".toList)).1
      = (bareLevels (splitOnChar ',' ("debug,mypackage=error".toList))).getLastD
          LevelInfo :=
  ⟨((parse_later_terms_win_c3 LevelInfo
      ("mypackage=error,mypackage=info".toList) (by decide)).2
      ("mypackage".toList)).2 ("info".toList) (by decide),
   (parse_later_terms_win_c3 LevelInfo ("debug,mypackage=error".toList)
      (by decide)).1⟩

end SlogEnv
